import Mathlib

/-!
Shallow embedding of `src/html.rs` of the monolith repository, together with
theorems settling the claims about its document walker.

Modelling conventions:

* `rcdom` nodes are modelled by the inductive `Html`: a node kind (`NodeData`),
  the state of the node's parent back-reference cell, and the list of children.
  In `rcdom` every node carries `parent : Cell<Option<WeakHandle>>`; we model
  the *presence* of the weak pointer by the Boolean field `parentPresent`
  (`true` = the cell currently holds `Some(weak)`).  The *identity* of the
  parent is recovered from the tree structure itself: the walker passes the
  enclosing element's tag name down the recursion (`pname`), exactly the
  string `get_parent_node_name` would produce by upgrading the pointer
  (`""` for a Document/Doctype/Text/Comment parent, the tag for an Element).
* Machine-level strings are Lean `String`s; `to_lowercase` is modelled by
  `String.toLower` (they agree on ASCII, which is all the claims use).
* The external collaborators (`resolve_url`, `retrieve_asset`, `is_valid_url`
  from `http.rs`, `data_to_dataurl` from `utils.rs`, and the html5ever
  parser/serializer) are not part of `src/html.rs`; they enter as the record
  `Env` of function parameters, fallible ones returning `Option`
  (`none` = `Err`), matching the contracts in the spec.
* Rust panics (`unreachable!()` on a ProcessingInstruction node, and the
  `.unwrap()` on an emptied parent cell in `get_parent_node_name`) make the
  walker return `none`.
* The Rust walk recurses on a heap tree without any depth bound; the Lean
  walker consumes one unit of `fuel` per visited node so that it is a total,
  kernel-computable function.  Theorems about completion therefore carry an
  explicit `depth t < fuel` bound.
-/

/-- One `html5ever` attribute: local name and mutable value. -/
structure Attr where
  name : String
  value : String
deriving DecidableEq

/-- The `rcdom::NodeData` kinds used by `html.rs`. -/
inductive NodeData where
  | document
  | doctype
  | text (contents : String)
  | comment (contents : String)
  | element (name : String) (attrs : List Attr)
  | pi
deriving DecidableEq

/-- An `rcdom` node: kind, the state of the parent back-reference cell
(`parentPresent = true` iff the `Cell<Option<WeakHandle>>` currently holds a
pointer), and the ordered children. -/
inductive Html where
  | mk (data : NodeData) (parentPresent : Bool) (children : List Html)

/-- The `EMPTY_STRING` lazy-static of `html.rs`. -/
def EMPTY_STRING : String := ""

/-- The `TRANSPARENT_PIXEL` constant of `html.rs`. -/
def TRANSPARENT_PIXEL : String :=
  "data:image/png;base64,iVBORw0KGgoAAAANSUhEUgAAAAEAAAABCAQAAAC1HAwCAAAAC0lEQVR42mNkYAAAAAYAAjCB0C8AAAAASUVORK5CYII="

/-- The `JS_DOM_EVENT_ATTRS` constant of `html.rs` (21 entries, source order). -/
def JS_DOM_EVENT_ATTRS : List String :=
  [ "onfocus", "onblur", "onselect", "onchange", "onsubmit", "onreset",
    "onkeydown", "onkeypress", "onkeyup",
    "onmouseover", "onmouseout", "onmousedown", "onmouseup", "onmousemove",
    "onclick", "ondblclick",
    "onload", "onunload", "onabort", "onerror", "onresize" ]

/-- Rust `str::to_lowercase`, modelled character-wise on the string's
character list (agrees with the Unicode version on ASCII, which is all the
source's comparisons use). -/
def to_lowercase (s : String) : List Char :=
  s.data.map Char.toLower

/-- Rust `str::starts_with(c)` for a single character pattern. -/
def starts_with_char (s : String) (c : Char) : Bool :=
  match s.data with
  | [] => false
  | d :: _ => d == c

/-- Substring containment on character lists: `containsSub p l` is true iff
`p` occurs contiguously inside `l` (used to model unanchored regex search). -/
def containsSub (p : List Char) : List Char → Bool
  | [] => p.isEmpty
  | c :: rest => p.isPrefixOf (c :: rest) || containsSub p rest

/-- The `is_icon` function of `html.rs`:
`ICON_VALUES.is_match(&attr_value.to_lowercase())` where `ICON_VALUES` is the
regex `^icon|shortcut icon|mask-icon|apple-touch-icon|fluid-icon$`.
Regex alternation binds loosest, so only the first alternative is anchored at
the start and only the last at the end: the pattern matches iff the lowercased
string starts with `icon`, contains `shortcut icon`, `mask-icon` or
`apple-touch-icon` anywhere, or ends with `fluid-icon`. -/
def is_icon (attr_value : String) : Bool :=
  let l := to_lowercase attr_value
  "icon".data.isPrefixOf l
    || containsSub "shortcut icon".data l
    || containsSub "mask-icon".data l
    || containsSub "apple-touch-icon".data l
    || "fluid-icon".data.isSuffixOf l

/-- Character class `[a-z0-9]` of the `HAS_PROTOCOL` regex. -/
def protocolChar (c : Char) : Bool :=
  (decide ('a' ≤ c) && decide (c ≤ 'z')) || (decide ('0' ≤ c) && decide (c ≤ '9'))

/-- The `has_protocol` function of `html.rs`:
`HAS_PROTOCOL.is_match(&url.to_lowercase())` with the regex `^[a-z0-9]+:`,
i.e. a nonempty run of lowercase alphanumerics at the start, immediately
followed by a colon. -/
def has_protocol (url : String) : Bool :=
  let l := to_lowercase url
  let p := l.takeWhile protocolChar
  !p.isEmpty &&
    (match l.drop p.length with
     | c :: _ => c == ':'
     | [] => false)

/-- The five option arguments threaded through `walk_and_embed_assets`. -/
structure Config where
  opt_no_js : Bool
  opt_no_images : Bool
  opt_user_agent : String
  opt_silent : Bool
  opt_insecure : Bool

/-- External collaborators of `html.rs` (from `http.rs`, `utils.rs` and
html5ever), as contracted in the spec: fallible ones return `Option`. -/
structure Env where
  resolve_url : String → String → Option String
  retrieve_asset : String → Bool → String → String → Bool → Bool → Option String
  is_valid_url : String → Bool
  html_to_dom : String → Html
  serialize : Html → String
  data_to_dataurl : String → String → String

/-- The `get_parent_node_name` function of `html.rs`.  The Rust code runs
`node.parent.take()` — which *empties* the parent cell and never restores it —
then upgrades and `unwrap()`s the taken pointer.  Given the name `pname` the
parent pointer designates (already `""` for non-Element parents) and the
current cell state, it returns the name together with the new (emptied) cell
state, or `none` for the `unwrap` panic when the cell held no pointer. -/
def get_parent_node_name (pname : String) (parentPresent : Bool) :
    Option (String × Bool) :=
  if parentPresent then some (pname, false) else none

/-- The `link_type` scan of the `link` arm: the first `rel` attribute whose
value classifies as icon or equals `stylesheet` decides; other `rel` values
are skipped and the scan continues. -/
def link_type : List Attr → String
  | [] => ""
  | a :: rest =>
    if a.name == "rel" then
      if is_icon a.value then "icon"
      else if a.value == "stylesheet" then "stylesheet"
      else link_type rest
    else link_type rest

/-- Icon branch of the `link` arm: every `href` gets the transparent pixel
(images disabled) or the retrieved data URI (empty string on failure). -/
def embed_link_icon (env : Env) (cfg : Config) (url : String)
    (attrs : List Attr) : List Attr :=
  attrs.map fun a =>
    if a.name == "href" then
      if cfg.opt_no_images then { a with value := TRANSPARENT_PIXEL }
      else
        let href_full_url := (env.resolve_url url a.value).getD EMPTY_STRING
        let favicon_datauri :=
          (env.retrieve_asset href_full_url true "" cfg.opt_user_agent
            cfg.opt_silent cfg.opt_insecure).getD EMPTY_STRING
        { a with value := favicon_datauri }
    else a

/-- Stylesheet branch of the `link` arm: every `href` is resolved and
retrieved with content-type hint `text/css`. -/
def embed_link_stylesheet (env : Env) (cfg : Config) (url : String)
    (attrs : List Attr) : List Attr :=
  attrs.map fun a =>
    if a.name == "href" then
      let href_full_url := (env.resolve_url url a.value).getD EMPTY_STRING
      let css_datauri :=
        (env.retrieve_asset href_full_url true "text/css" cfg.opt_user_agent
          cfg.opt_silent cfg.opt_insecure).getD EMPTY_STRING
      { a with value := css_datauri }
    else a

/-- Passthrough branch of the `link` arm: every `href` is replaced by its
resolved absolute form; no retrieval. -/
def embed_link_passthrough (env : Env) (url : String)
    (attrs : List Attr) : List Attr :=
  attrs.map fun a =>
    if a.name == "href" then
      { a with value := (env.resolve_url url a.value).getD EMPTY_STRING }
    else a

/-- The whole `link` arm of `walk_and_embed_assets`. -/
def embed_link (env : Env) (cfg : Config) (url : String)
    (attrs : List Attr) : List Attr :=
  if link_type attrs == "icon" then embed_link_icon env cfg url attrs
  else if link_type attrs == "stylesheet" then
    embed_link_stylesheet env cfg url attrs
  else embed_link_passthrough env url attrs

/-- The `img` arm: empty `src` untouched; transparent pixel when images are
disabled; otherwise resolve and retrieve (empty string on failure). -/
def embed_img (env : Env) (cfg : Config) (url : String)
    (attrs : List Attr) : List Attr :=
  attrs.map fun a =>
    if a.name == "src" then
      if a.value == EMPTY_STRING then a
      else if cfg.opt_no_images then { a with value := TRANSPARENT_PIXEL }
      else
        let src_full_url := (env.resolve_url url a.value).getD EMPTY_STRING
        let img_datauri :=
          (env.retrieve_asset src_full_url true "" cfg.opt_user_agent
            cfg.opt_silent cfg.opt_insecure).getD EMPTY_STRING
        { a with value := img_datauri }
    else a

/-- The `source` arm: for each `srcset` attribute the parent name is looked up
through `get_parent_node_name`, which destructively empties the parent cell
(threaded here as the Boolean state) and panics (`none`) if the cell is
already empty; only under a `picture` parent is the value rewritten. -/
def embed_source (env : Env) (cfg : Config) (url : String) (pname : String) :
    List Attr → Bool → Option (List Attr × Bool)
  | [], pp => some ([], pp)
  | a :: rest, pp =>
    if a.name == "srcset" then
      match get_parent_node_name pname pp with
      | none => none
      | some (parentName, pp') =>
        let a' :=
          if parentName == "picture" then
            if cfg.opt_no_images then { a with value := TRANSPARENT_PIXEL }
            else
              let srcset_full_url := (env.resolve_url url a.value).getD EMPTY_STRING
              let source_datauri :=
                (env.retrieve_asset srcset_full_url true "" cfg.opt_user_agent
                  cfg.opt_silent cfg.opt_insecure).getD EMPTY_STRING
              { a with value := source_datauri }
          else a
        (embed_source env cfg url pname rest pp').map fun r => (a' :: r.1, r.2)
    else
      (embed_source env cfg url pname rest pp).map fun r => (a :: r.1, r.2)

/-- The `a` arm: fragment-only and protocol-carrying `href`s are skipped,
others are resolved to absolute form. -/
def embed_anchor (env : Env) (url : String) (attrs : List Attr) : List Attr :=
  attrs.map fun a =>
    if a.name == "href" then
      if starts_with_char a.value '#' || has_protocol a.value then a
      else { a with value := (env.resolve_url url a.value).getD EMPTY_STRING }
    else a

/-- The `script` arm when script execution is disabled: `src` values are
cleared in place (children are discarded separately). -/
def embed_script_nojs (attrs : List Attr) : List Attr :=
  attrs.map fun a =>
    if a.name == "src" then { a with value := EMPTY_STRING } else a

/-- The `script` arm when scripts are kept: `src` is resolved and retrieved
with content-type hint `application/javascript`. -/
def embed_script_src (env : Env) (cfg : Config) (url : String)
    (attrs : List Attr) : List Attr :=
  attrs.map fun a =>
    if a.name == "src" then
      let src_full_url := (env.resolve_url url a.value).getD EMPTY_STRING
      let js_datauri :=
        (env.retrieve_asset src_full_url true "application/javascript"
          cfg.opt_user_agent cfg.opt_silent cfg.opt_insecure).getD EMPTY_STRING
      { a with value := js_datauri }
    else a

/-- The `form` arm: an `action` that already validates as a URL is skipped,
others are resolved to absolute form. -/
def embed_form (env : Env) (url : String) (attrs : List Attr) : List Attr :=
  attrs.map fun a =>
    if a.name == "action" then
      if env.is_valid_url a.value then a
      else { a with value := (env.resolve_url url a.value).getD EMPTY_STRING }
    else a

/-- Membership test `JS_DOM_EVENT_ATTRS.contains(&attr.name.local.to_lowercase())`. -/
def is_event_attr (name : String) : Bool :=
  (JS_DOM_EVENT_ATTRS.map String.data).contains (to_lowercase name)

/-- The trailing event-attribute pass: when scripts are disabled, every
attribute whose lowercased name is in `JS_DOM_EVENT_ATTRS` is cleared. -/
def clear_event_attrs (attrs : List Attr) : List Attr :=
  attrs.map fun a =>
    if is_event_attr a.name then { a with value := EMPTY_STRING } else a

/-- Option-valued map over a list (`none` propagates, order preserved). -/
def mapOpt (f : α → Option β) : List α → Option (List β)
  | [] => some []
  | a :: l =>
    match f a, mapOpt f l with
    | some b, some l' => some (b :: l')
    | _, _ => none

/-- The `iframe` arm of `walk_and_embed_assets`: an empty `src` is skipped
outright; a nonempty one is resolved, retrieved as raw text, parsed, walked
recursively (`recur`, the walker itself, with the resolved URL as new base),
serialized and re-encoded as a `text/html` data URI. -/
def iframe_step (recur : String → Html → Option Html) (env : Env)
    (cfg : Config) (url : String) (attrs : List Attr) : Option (List Attr) :=
  mapOpt (fun a =>
    if a.name == "src" then
      if a.value == EMPTY_STRING then some a
      else
        let src_full_url := (env.resolve_url url a.value).getD EMPTY_STRING
        let iframe_data :=
          (env.retrieve_asset src_full_url false "text/html"
            cfg.opt_user_agent cfg.opt_silent cfg.opt_insecure).getD EMPTY_STRING
        (recur src_full_url (env.html_to_dom iframe_data)).map fun walked =>
          { a with value :=
              env.data_to_dataurl "text/html" (env.serialize walked) }
    else some a) attrs

/-- Tag dispatch of the Element arm of `walk_and_embed_assets`, producing the
rewritten attributes, the new parent-cell state and the (possibly emptied)
child list, or `none` on a panic.  `recur` is the walker itself, used by the
`iframe` arm for the nested sub-document walk. -/
def element_step (recur : String → Html → Option Html) (env : Env)
    (cfg : Config) (url pname name : String) (attrs : List Attr) (pp : Bool)
    (children : List Html) : Option (List Attr × Bool × List Html) :=
  if name == "link" then some (embed_link env cfg url attrs, pp, children)
  else if name == "img" then some (embed_img env cfg url attrs, pp, children)
  else if name == "source" then
    (embed_source env cfg url pname attrs pp).map fun r => (r.1, r.2, children)
  else if name == "a" then some (embed_anchor env url attrs, pp, children)
  else if name == "script" then
    if cfg.opt_no_js then some (embed_script_nojs attrs, pp, [])
    else some (embed_script_src env cfg url attrs, pp, children)
  else if name == "form" then some (embed_form env url attrs, pp, children)
  else if name == "iframe" then
    (iframe_step recur env cfg url attrs).map fun as => (as, pp, children)
  else some (attrs, pp, children)

/-- The `walk_and_embed_assets` function of `html.rs`.  `pname` is the tag
name the node's parent pointer designates (`""` when the parent is not an
Element); children of a Document are walked with `pname = ""`, children of an
Element with the element's tag.  One unit of fuel is consumed per visited
node; `none` models both fuel exhaustion and a Rust panic. -/
def walk_and_embed_assets (env : Env) (cfg : Config) :
    Nat → String → String → Html → Option Html
  | 0, _, _, _ => none
  | Nat.succ fuel, url, pname, Html.mk data pp children =>
    match data with
    | NodeData.document =>
      (mapOpt (walk_and_embed_assets env cfg fuel url EMPTY_STRING) children).map
        (Html.mk NodeData.document pp)
    | NodeData.doctype => some (Html.mk NodeData.doctype pp children)
    | NodeData.text s => some (Html.mk (NodeData.text s) pp children)
    | NodeData.comment s => some (Html.mk (NodeData.comment s) pp children)
    | NodeData.pi => none
    | NodeData.element name attrs =>
      match element_step
          (fun u t => walk_and_embed_assets env cfg fuel u EMPTY_STRING t)
          env cfg url pname name attrs pp children with
      | none => none
      | some (attrs1, pp1, children1) =>
        let attrs2 := if cfg.opt_no_js then clear_event_attrs attrs1 else attrs1
        (mapOpt (walk_and_embed_assets env cfg fuel url name) children1).map
          (Html.mk (NodeData.element name attrs2) pp1)

mutual

/-- Nesting depth of a node (a leaf has depth 1). -/
def Html.depth : Html → Nat
  | .mk _ _ cs => 1 + Html.depthList cs

/-- Maximal depth of a list of nodes (0 for the empty list). -/
def Html.depthList : List Html → Nat
  | [] => 0
  | c :: cs => max (Html.depth c) (Html.depthList cs)

end

/-- Per-node panic-freedom check: no ProcessingInstruction node, and a
`source` element may carry at most one `srcset` attribute, with the parent
cell still holding a pointer when it carries one. -/
def NodeData.nodeOk : NodeData → Bool → Bool
  | NodeData.pi, _ => false
  | NodeData.element n attrs, pp =>
    if n == "source" then
      let k := (attrs.filter fun a => a.name == "srcset").length
      k == 0 || (k == 1 && pp)
    else true
  | _, _ => true

mutual

/-- A tree on which the walker cannot panic (modulo fuel). -/
def Html.wf : Html → Bool
  | .mk d pp cs => NodeData.nodeOk d pp && Html.wfList cs

/-- `Html.wf` for every member of a list. -/
def Html.wfList : List Html → Bool
  | [] => true
  | c :: cs => Html.wf c && Html.wfList cs

end

/-- Environment in which every resolution and every retrieval fails, and a
nested parse yields an empty document. -/
def envFail : Env where
  resolve_url _ _ := none
  retrieve_asset _ _ _ _ _ _ := none
  is_valid_url _ := false
  html_to_dom _ := Html.mk NodeData.document false []
  serialize _ := EMPTY_STRING
  data_to_dataurl _ _ := EMPTY_STRING

/-- Concrete test environment whose collaborators record their arguments in
the produced strings, so different retrieval modes are distinguishable. -/
def testEnv : Env where
  resolve_url base ref := some ("R(" ++ base ++ "," ++ ref ++ ")")
  retrieve_asset u as_data ct _ _ _ :=
    some ("A(" ++ u ++ "," ++ (if as_data then "d" else "r") ++ "," ++ ct ++ ")")
  is_valid_url s := has_protocol s
  html_to_dom _ := Html.mk NodeData.document false []
  serialize _ := "S"
  data_to_dataurl m d := "data:" ++ m ++ "," ++ d

/-- Configuration with images disabled and scripts kept. -/
def cfgNoImages : Config := ⟨false, true, "", true, true⟩

/-- Configuration with everything kept. -/
def cfgPlain : Config := ⟨false, false, "", true, true⟩

/-- A freshly parsed document holding `<picture><source srcset="x"></picture>`
(every non-root node's parent cell holds its pointer). -/
def pictureSourceDoc : Html :=
  Html.mk NodeData.document false
    [Html.mk (NodeData.element "picture" []) true
      [Html.mk (NodeData.element "source" [⟨"srcset", "x"⟩]) true []]]

/-- The same document with the `srcset` reference already holding the
transparent-pixel data URI. -/
def pictureSourceDocDataUri : Html :=
  Html.mk NodeData.document false
    [Html.mk (NodeData.element "picture" []) true
      [Html.mk (NodeData.element "source" [⟨"srcset", TRANSPARENT_PIXEL⟩]) true []]]

/-- What one walk of `pictureSourceDocDataUri` produces: the `srcset` value is
unchanged, but the `source` node's parent cell has been emptied by
`get_parent_node_name`. -/
def pictureSourceDocWalked : Html :=
  Html.mk NodeData.document false
    [Html.mk (NodeData.element "picture" []) true
      [Html.mk (NodeData.element "source" [⟨"srcset", TRANSPARENT_PIXEL⟩]) false []]]

/-- A `link` element whose first `rel` is `stylesheet` and whose second `rel`
classifies as icon. -/
def linkRelOrderNode : Html :=
  Html.mk (NodeData.element "link"
    [⟨"rel", "stylesheet"⟩, ⟨"rel", "icon"⟩, ⟨"href", "h"⟩]) true []

theorem isPrefixOf_true_iff (p : List Char) :
    ∀ l : List Char, p.isPrefixOf l = true ↔ ∃ t, l = p ++ t := by
  induction p with
  | nil => intro l; simp
  | cons a as ih =>
    intro l
    cases l with
    | nil => simp
    | cons b bs =>
      rw [List.isPrefixOf_cons₂, Bool.and_eq_true, beq_iff_eq]
      constructor
      · rintro ⟨h1, h2⟩
        obtain ⟨t, ht⟩ := (ih bs).mp h2
        exact ⟨t, by simp [h1, ht]⟩
      · rintro ⟨t, ht⟩
        injection ht with h1 h2
        exact ⟨h1.symm, (ih bs).mpr ⟨t, h2⟩⟩

theorem containsSub_true_iff (p : List Char) :
    ∀ l : List Char, containsSub p l = true ↔ ∃ u v, l = u ++ p ++ v := by
  intro l
  induction l with
  | nil =>
    simp only [containsSub, List.isEmpty_iff]
    constructor
    · intro h; exact ⟨[], [], by simp [h]⟩
    · rintro ⟨u, v, huv⟩
      rcases List.append_eq_nil.mp (List.append_eq_nil.mp huv.symm).1 with ⟨-, h2⟩
      exact h2
  | cons c rest ih =>
    simp only [containsSub, Bool.or_eq_true, isPrefixOf_true_iff, ih]
    constructor
    · rintro (⟨t, ht⟩ | ⟨u, v, huv⟩)
      · exact ⟨[], t, by simp [ht]⟩
      · exact ⟨c :: u, v, by simp [huv]⟩
    · rintro ⟨u, v, huv⟩
      cases u with
      | nil => exact Or.inl ⟨v, by simpa using huv⟩
      | cons x u' =>
        right
        injection huv with h1 h2
        exact ⟨u', v, by simpa using h2⟩

theorem isSuffixOf_true_iff (p l : List Char) :
    p.isSuffixOf l = true ↔ ∃ u, l = u ++ p := by
  rw [List.isSuffixOf, isPrefixOf_true_iff]
  constructor
  · rintro ⟨t, ht⟩
    refine ⟨t.reverse, ?_⟩
    have := congrArg List.reverse ht
    simpa using this
  · rintro ⟨u, hu⟩
    exact ⟨u.reverse, by simp [hu]⟩

theorem mapOpt_isSome {f : α → Option β} :
    ∀ {l : List α}, (∀ a ∈ l, (f a).isSome = true) → (mapOpt f l).isSome = true := by
  intro l
  induction l with
  | nil => intro _; rfl
  | cons a rest ih =>
    intro h
    have ha := h a (List.mem_cons_self a rest)
    have hrest := ih fun b hb => h b (List.mem_cons_of_mem a hb)
    simp only [mapOpt]
    obtain ⟨b, hb⟩ := Option.isSome_iff_exists.mp ha
    obtain ⟨l', hl'⟩ := Option.isSome_iff_exists.mp hrest
    rw [hb, hl']
    rfl

theorem depth_pos (t : Html) : 0 < Html.depth t := by
  cases t with
  | mk d pp cs => rw [Html.depth]; omega

theorem depthList_le {c : Html} :
    ∀ {cs : List Html}, c ∈ cs → Html.depth c ≤ Html.depthList cs := by
  intro cs
  induction cs with
  | nil => intro h; cases h
  | cons x rest ih =>
    intro h
    rw [Html.depthList]
    rcases List.mem_cons.mp h with h1 | h2
    · subst h1; exact Nat.le_max_left _ _
    · exact Nat.le_trans (ih h2) (Nat.le_max_right _ _)

theorem wfList_mem {c : Html} :
    ∀ {cs : List Html}, Html.wfList cs = true → c ∈ cs → Html.wf c = true := by
  intro cs
  induction cs with
  | nil => intro _ h; cases h
  | cons x rest ih =>
    intro hwf h
    rw [Html.wfList, Bool.and_eq_true] at hwf
    rcases List.mem_cons.mp h with h1 | h2
    · subst h1; exact hwf.1
    · exact ih hwf.2 h2

theorem embed_source_isSome_zero (env : Env) (cfg : Config) (url pname : String) :
    ∀ (attrs : List Attr) (pp : Bool),
      (attrs.filter fun a => a.name == "srcset").length = 0 →
      (embed_source env cfg url pname attrs pp).isSome = true := by
  intro attrs
  induction attrs with
  | nil => intro pp _; rfl
  | cons a rest ih =>
    intro pp h
    rw [List.filter_cons] at h
    by_cases hs : a.name == "srcset"
    · simp [hs] at h
    · simp only [hs, Bool.false_eq_true, if_false] at h
      rw [embed_source]
      simp only [hs, Bool.false_eq_true, if_false]
      have := ih pp h
      obtain ⟨r, hr⟩ := Option.isSome_iff_exists.mp this
      rw [hr]
      rfl

theorem embed_source_isSome (env : Env) (cfg : Config) (url pname : String)
    (attrs : List Attr) (pp : Bool)
    (h : ((attrs.filter fun a => a.name == "srcset").length == 0
          || ((attrs.filter fun a => a.name == "srcset").length == 1 && pp)) = true) :
    (embed_source env cfg url pname attrs pp).isSome = true := by
  induction attrs with
  | nil => rfl
  | cons a rest ih =>
    rw [List.filter_cons] at h
    by_cases hs : a.name == "srcset"
    · simp only [hs, if_true] at h
      rw [Bool.or_eq_true, Bool.and_eq_true] at h
      rcases h with h0 | ⟨h1, hpp⟩
      · simp at h0
      · rw [embed_source]
        simp only [hs, if_true]
        have hg : get_parent_node_name pname true = some (pname, false) := rfl
        rw [hpp, hg]
        have hz : (rest.filter fun a => a.name == "srcset").length = 0 := by
          have := beq_iff_eq.mp h1
          simpa using this
        dsimp only
        rw [Option.isSome_map']
        exact embed_source_isSome_zero env cfg url pname rest false hz
    · simp only [hs, Bool.false_eq_true, if_false] at h
      rw [embed_source]
      simp only [hs, Bool.false_eq_true, if_false]
      have := ih h
      obtain ⟨r, hr⟩ := Option.isSome_iff_exists.mp this
      rw [hr]
      rfl

theorem walk_empty_document (env : Env) (cfg : Config) (url pname : String)
    (b : Bool) :
    ∀ fuel : Nat, 1 ≤ fuel →
      (walk_and_embed_assets env cfg fuel url pname
        (Html.mk NodeData.document b [])).isSome = true := by
  intro fuel h
  cases fuel with
  | zero => omega
  | succ f => rfl

theorem iframe_step_envFail_isSome (recur : String → Html → Option Html)
    (cfg : Config) (url : String) (attrs : List Attr)
    (h : ∀ u, (recur u (Html.mk NodeData.document false [])).isSome = true) :
    (iframe_step recur envFail cfg url attrs).isSome = true := by
  apply mapOpt_isSome
  intro a _
  by_cases hn : a.name == "src"
  · by_cases hv : a.value == EMPTY_STRING
    · simp [hn, hv]
    · simp only [hn, hv, Bool.false_eq_true, if_false, if_true,
        Option.isSome_map']
      exact h _
  · simp [hn]

theorem walk_envFail_total :
    ∀ (fuel : Nat) (t : Html) (cfg : Config) (url pname : String),
      Html.wf t = true → Html.depth t < fuel →
      (walk_and_embed_assets envFail cfg fuel url pname t).isSome = true := by
  intro fuel
  induction fuel with
  | zero => intro t cfg url pname _ hd; exact absurd hd (Nat.not_lt_zero _)
  | succ f ih =>
    intro t cfg url pname hwf hd
    cases t with
    | mk d pp cs =>
      rw [Html.wf, Bool.and_eq_true] at hwf
      obtain ⟨hok, hcs⟩ := hwf
      rw [Html.depth] at hd
      have hdcs : Html.depthList cs < f := by omega
      have hf1 : 1 ≤ f := by omega
      have hkids : ∀ pn,
          (mapOpt (walk_and_embed_assets envFail cfg f url pn) cs).isSome = true := by
        intro pn
        apply mapOpt_isSome
        intro c hc
        exact ih c cfg url pn (wfList_mem hcs hc)
          (Nat.lt_of_le_of_lt (depthList_le hc) hdcs)
      cases d with
      | document =>
        simp only [walk_and_embed_assets, Option.isSome_map']
        exact hkids EMPTY_STRING
      | doctype => rfl
      | text s => rfl
      | comment s => rfl
      | pi => simp [NodeData.nodeOk] at hok
      | element name attrs =>
        simp only [walk_and_embed_assets]
        by_cases hl : name == "link"
        · simp only [element_step, hl, if_true]
          simp [Option.isSome_map']
          exact hkids name
        by_cases hi : name == "img"
        · simp only [element_step, hl, hi, Bool.false_eq_true, if_false, if_true]
          simp [Option.isSome_map']
          exact hkids name
        by_cases hsrc : name == "source"
        · have hcond :
              ((attrs.filter fun a => a.name == "srcset").length == 0
                || ((attrs.filter fun a => a.name == "srcset").length == 1 && pp))
                = true := by
            rw [NodeData.nodeOk, hsrc] at hok
            simpa using hok
          obtain ⟨r, hr⟩ := Option.isSome_iff_exists.mp
            (embed_source_isSome envFail cfg url pname attrs pp hcond)
          simp only [element_step, hl, hi, hsrc, Bool.false_eq_true, if_false,
            if_true, hr]
          simp [Option.isSome_map']
          exact hkids name
        by_cases ha : name == "a"
        · simp only [element_step, hl, hi, hsrc, ha, Bool.false_eq_true,
            if_false, if_true]
          simp [Option.isSome_map']
          exact hkids name
        by_cases hs : name == "script"
        · simp only [element_step, hl, hi, hsrc, ha, hs, Bool.false_eq_true,
            if_false, if_true]
          by_cases hjs : cfg.opt_no_js
          · simp [hjs, Option.isSome_map', mapOpt]
          · simp [hjs, Option.isSome_map']
            exact hkids name
        by_cases hfo : name == "form"
        · simp only [element_step, hl, hi, hsrc, ha, hs, hfo,
            Bool.false_eq_true, if_false, if_true]
          simp [Option.isSome_map']
          exact hkids name
        by_cases hif : name == "iframe"
        · have hstep := iframe_step_envFail_isSome
            (fun u t => walk_and_embed_assets envFail cfg f u EMPTY_STRING t)
            cfg url attrs
            (fun u => walk_empty_document envFail cfg u EMPTY_STRING false f hf1)
          obtain ⟨as, has⟩ := Option.isSome_iff_exists.mp hstep
          simp only [element_step, hl, hi, hsrc, ha, hs, hfo, hif,
            Bool.false_eq_true, if_false, if_true, has]
          simp [Option.isSome_map']
          exact hkids name
        · simp only [element_step, hl, hi, hsrc, ha, hs, hfo, hif,
            Bool.false_eq_true, if_false]
          simp [Option.isSome_map']
          exact hkids name

theorem clear_event_attrs_getElem (attrs : List Attr) (i : Nat) (a : Attr)
    (h : attrs[i]? = some a) :
    (clear_event_attrs attrs)[i]?
      = some (if is_event_attr a.name then { a with value := EMPTY_STRING }
              else a) := by
  rw [clear_event_attrs, List.getElem?_map, h, Option.map_some']

theorem clear_event_attrs_mem (attrs : List Attr) :
    ∀ a ∈ clear_event_attrs attrs,
      is_event_attr a.name = true → a.value = EMPTY_STRING := by
  intro a ha hev
  rw [clear_event_attrs] at ha
  obtain ⟨b, _, hb⟩ := List.mem_map.mp ha
  by_cases h : is_event_attr b.name
  · rw [if_pos h] at hb
    rw [← hb]
  · rw [if_neg h] at hb
    subst hb
    exact absurd hev h

theorem iframe_step_all_empty (recur : String → Html → Option Html)
    (env : Env) (cfg : Config) (url : String) :
    ∀ attrs : List Attr,
      (∀ a ∈ attrs, a.name = "src" → a.value = EMPTY_STRING) →
      iframe_step recur env cfg url attrs = some attrs := by
  intro attrs
  induction attrs with
  | nil => intro _; rfl
  | cons a rest ih =>
    intro h
    have hrest := ih fun b hb => h b (List.mem_cons_of_mem a hb)
    rw [iframe_step] at hrest ⊢
    rw [mapOpt]
    by_cases hn : a.name == "src"
    · have hv : a.value = EMPTY_STRING :=
        h a (List.mem_cons_self a rest) (beq_iff_eq.mp hn)
      have hv' : (a.value == EMPTY_STRING) = true := beq_iff_eq.mpr hv
      simp only [hn, hv', if_true, hrest]
    · simp only [hn, Bool.false_eq_true, if_false, hrest]

theorem link_type_first_icon :
    ∀ (pre post : List Attr) (a : Attr),
      a.name = "rel" → is_icon a.value = true →
      (∀ b ∈ pre, b.name = "rel" →
        is_icon b.value = false ∧ b.value ≠ "stylesheet") →
      link_type (pre ++ a :: post) = "icon" := by
  intro pre
  induction pre with
  | nil =>
    intro post a hn hic _
    simp only [List.nil_append, link_type, beq_iff_eq, hn, if_true, hic]
  | cons b pre' ih =>
    intro post a hn hic hpre
    rw [List.cons_append, link_type]
    by_cases hb : b.name == "rel"
    · obtain ⟨h1, h2⟩ := hpre b (List.mem_cons_self b pre') (beq_iff_eq.mp hb)
      have h2' : (b.value == "stylesheet") = false := by
        rw [beq_eq_false_iff_ne]
        exact h2
      simp only [hb, if_true, h1, Bool.false_eq_true, if_false, h2']
      exact ih post a hn hic fun c hc => hpre c (List.mem_cons_of_mem b hc)
    · simp only [hb, Bool.false_eq_true, if_false]
      exact ih post a hn hic fun c hc => hpre c (List.mem_cons_of_mem b hc)

theorem link_type_first_stylesheet :
    ∀ (pre post : List Attr) (a : Attr),
      a.name = "rel" → a.value = "stylesheet" →
      (∀ b ∈ pre, b.name = "rel" →
        is_icon b.value = false ∧ b.value ≠ "stylesheet") →
      link_type (pre ++ a :: post) = "stylesheet" := by
  intro pre
  induction pre with
  | nil =>
    intro post a hn hv _
    have hic : is_icon a.value = false := by rw [hv]; decide
    have hv' : (a.value == "stylesheet") = true := beq_iff_eq.mpr hv
    simp only [List.nil_append, link_type, beq_iff_eq, hn, if_true, hic,
      Bool.false_eq_true, if_false, hv']
  | cons b pre' ih =>
    intro post a hn hv hpre
    rw [List.cons_append, link_type]
    by_cases hb : b.name == "rel"
    · obtain ⟨h1, h2⟩ := hpre b (List.mem_cons_self b pre') (beq_iff_eq.mp hb)
      have h2' : (b.value == "stylesheet") = false := by
        rw [beq_eq_false_iff_ne]
        exact h2
      simp only [hb, if_true, h1, Bool.false_eq_true, if_false, h2']
      exact ih post a hn hv fun c hc => hpre c (List.mem_cons_of_mem b hc)
    · simp only [hb, Bool.false_eq_true, if_false]
      exact ih post a hn hv fun c hc => hpre c (List.mem_cons_of_mem b hc)

theorem link_type_no_match :
    ∀ attrs : List Attr,
      (∀ b ∈ attrs, b.name = "rel" →
        is_icon b.value = false ∧ b.value ≠ "stylesheet") →
      link_type attrs = "" := by
  intro attrs
  induction attrs with
  | nil => intro _; rfl
  | cons b rest ih =>
    intro h
    rw [link_type]
    by_cases hb : b.name == "rel"
    · obtain ⟨h1, h2⟩ := h b (List.mem_cons_self b rest) (beq_iff_eq.mp hb)
      have h2' : (b.value == "stylesheet") = false := by
        rw [beq_eq_false_iff_ne]
        exact h2
      simp only [hb, if_true, h1, Bool.false_eq_true, if_false, h2']
      exact ih fun c hc => h c (List.mem_cons_of_mem b hc)
    · simp only [hb, Bool.false_eq_true, if_false]
      exact ih fun c hc => h c (List.mem_cons_of_mem b hc)

/-- C1: the claim states that the walk preserves the parent back-reference
invariant, and in particular that a `source` inside a `picture` keeps a
usable back-reference.  The code violates this: `get_parent_node_name` calls
`node.parent.take()` and never restores the cell, so walking
`<picture><source srcset="x"></picture>` (all parent cells present, modelled
by `pictureSourceDoc`) leaves the `source` node with an emptied parent cell
(`parentPresent = false` in the result) even though the node is still in the
tree.  This theorem evaluates the walker at that failing input. -/
theorem C1_source_backref_cleared :
    walk_and_embed_assets testEnv cfgNoImages 5 "http://localhost" ""
        pictureSourceDoc
      = some (Html.mk NodeData.document false
          [Html.mk (NodeData.element "picture" []) true
            [Html.mk (NodeData.element "source" [⟨"srcset", TRANSPARENT_PIXEL⟩])
              false []]]) := rfl

/-- C8: the claim states that re-walking with identical configuration
completes normally on any tree produced by a first walk.  Walking
`pictureSourceDocDataUri` (whose only reference is already a data URI) once
succeeds and empties the `source` node's parent cell; walking the produced
tree again with the identical configuration panics — `get_parent_node_name`
unwraps the now-empty cell — so the second walk returns `none`. -/
theorem C8_rewalk_panics :
    walk_and_embed_assets testEnv cfgNoImages 5 "http://localhost" ""
        pictureSourceDocDataUri = some pictureSourceDocWalked
    ∧ walk_and_embed_assets testEnv cfgNoImages 5 "http://localhost" ""
        pictureSourceDocWalked = none :=
  ⟨rfl, rfl⟩

/-- C2 counterexample: the claim asserts `is_icon "icon " = false` (exact
match, no trimming).  In the code the regex alternative `^icon` is unanchored
at the end, so `"icon "` matches even though its lowercase form equals none
of the five listed values. -/
theorem C2_counterexample_icon_space :
    is_icon "icon " = true
    ∧ to_lowercase "icon " ≠ "icon".data
    ∧ to_lowercase "icon " ≠ "shortcut icon".data
    ∧ to_lowercase "icon " ≠ "mask-icon".data
    ∧ to_lowercase "icon " ≠ "apple-touch-icon".data
    ∧ to_lowercase "icon " ≠ "fluid-icon".data := by
  refine ⟨by decide, by decide, by decide, by decide, by decide, by decide⟩

/-- C2 amended: `is_icon` is case-insensitive but not an exact five-value
match: it returns true iff the lowercased string starts with `icon`, contains
`shortcut icon`, `mask-icon` or `apple-touch-icon` anywhere, or ends with
`fluid-icon` (so each of the five listed values is accepted, but so are
strings such as `"icon "`); in particular `is_icon "ICON" = true` and
`is_icon "icon " = true` (not `false` as claimed). -/
theorem C2_amended_icon_regex :
    (∀ s : String, is_icon s = true ↔
      ((∃ t, to_lowercase s = "icon".data ++ t)
        ∨ (∃ u v, to_lowercase s = u ++ "shortcut icon".data ++ v)
        ∨ (∃ u v, to_lowercase s = u ++ "mask-icon".data ++ v)
        ∨ (∃ u v, to_lowercase s = u ++ "apple-touch-icon".data ++ v)
        ∨ (∃ u, to_lowercase s = u ++ "fluid-icon".data)))
    ∧ is_icon "ICON" = true ∧ is_icon "icon " = true
    ∧ is_icon "icon" = true ∧ is_icon "shortcut icon" = true
    ∧ is_icon "mask-icon" = true ∧ is_icon "apple-touch-icon" = true
    ∧ is_icon "fluid-icon" = true := by
  refine ⟨?_, by decide, by decide, by decide, by decide, by decide,
    by decide, by decide⟩
  intro s
  rw [is_icon]
  simp only [Bool.or_eq_true, isPrefixOf_true_iff, containsSub_true_iff,
    isSuffixOf_true_iff, or_assoc]

/-- C3 counterexample: the claim states that whenever any `rel` attribute
classifies as icon the icon branch wins regardless of attribute order.  On a
`link` whose attribute order is `rel="stylesheet"`, `rel="icon"`,
`href="h"`, the scan stops at the first matching `rel`, so the stylesheet
branch runs: under `testEnv` the `href` records the `text/css` content-type
hint of the stylesheet retrieval, which differs from what the icon branch
(empty content-type hint) would have produced — even though `rel="icon"`
classifies as icon. -/
theorem C3_counterexample_rel_order :
    walk_and_embed_assets testEnv cfgPlain 2 "http://x" "" linkRelOrderNode
      = some (Html.mk (NodeData.element "link"
          [⟨"rel", "stylesheet"⟩, ⟨"rel", "icon"⟩,
           ⟨"href", "A(R(http://x,h),d,text/css)"⟩]) true [])
    ∧ is_icon "icon" = true
    ∧ embed_link_icon testEnv cfgPlain "http://x"
        [⟨"rel", "stylesheet"⟩, ⟨"rel", "icon"⟩, ⟨"href", "h"⟩]
      = [⟨"rel", "stylesheet"⟩, ⟨"rel", "icon"⟩, ⟨"href", "A(R(http://x,h),d,)"⟩]
    ∧ ("A(R(http://x,h),d,text/css)" : String) ≠ "A(R(http://x,h),d,)" := by
  refine ⟨rfl, by decide, rfl, by decide⟩

/-- C3 amended: the `link` branch is decided by scanning attributes in
document order; the first `rel` attribute whose value classifies as icon or
equals `stylesheet` decides the branch (icon resp. stylesheet), `rel` values
matching neither are skipped and scanning continues; when no `rel` matches
(including when no `rel` exists) the passthrough branch sets each `href` to
its resolved absolute form with no retrieval.  An icon-classified `rel` wins
only if no `rel` equal to `stylesheet` precedes it in attribute order. -/
theorem C3_amended_link_branch :
    (∀ (env : Env) (cfg : Config) (url pname : String) (fuel : Nat)
        (attrs : List Attr) (pp : Bool),
      cfg.opt_no_js = false →
      walk_and_embed_assets env cfg (fuel + 1) url pname
          (Html.mk (NodeData.element "link" attrs) pp [])
        = some (Html.mk (NodeData.element "link"
            (if link_type attrs == "icon" then embed_link_icon env cfg url attrs
             else if link_type attrs == "stylesheet" then
               embed_link_stylesheet env cfg url attrs
             else embed_link_passthrough env url attrs)) pp []))
    ∧ (∀ (pre post : List Attr) (a : Attr),
        a.name = "rel" → is_icon a.value = true →
        (∀ b ∈ pre, b.name = "rel" →
          is_icon b.value = false ∧ b.value ≠ "stylesheet") →
        link_type (pre ++ a :: post) = "icon")
    ∧ (∀ (pre post : List Attr) (a : Attr),
        a.name = "rel" → a.value = "stylesheet" →
        (∀ b ∈ pre, b.name = "rel" →
          is_icon b.value = false ∧ b.value ≠ "stylesheet") →
        link_type (pre ++ a :: post) = "stylesheet")
    ∧ (∀ attrs : List Attr,
        (∀ b ∈ attrs, b.name = "rel" →
          is_icon b.value = false ∧ b.value ≠ "stylesheet") →
        link_type attrs = "")
    ∧ (∀ (env : Env) (url : String) (attrs : List Attr)
        (r : String → Bool → String → String → Bool → Bool → Option String),
        embed_link_passthrough { env with retrieve_asset := r } url attrs
          = embed_link_passthrough env url attrs)
    ∧ (∀ (env : Env) (url : String) (attrs : List Attr) (i : Nat) (a : Attr),
        attrs[i]? = some a → a.name = "href" →
        (embed_link_passthrough env url attrs)[i]?
          = some { a with
              value := (env.resolve_url url a.value).getD EMPTY_STRING }) := by
  refine ⟨?_, link_type_first_icon, link_type_first_stylesheet,
    link_type_no_match, fun env url attrs r => rfl, ?_⟩
  · intro env cfg url pname fuel attrs pp hjs
    simp [walk_and_embed_assets, element_step, embed_link, hjs, mapOpt]
  · intro env url attrs i a hi hname
    rw [embed_link_passthrough, List.getElem?_map, hi, Option.map_some']
    have hn : (a.name == "href") = true := beq_iff_eq.mpr hname
    simp [hn]

/-- Witness for the C3 amended theorem at concrete inputs: a `link` with a
non-matching `rel` takes the passthrough branch, and the scan lemmas applied
to singleton attribute lists. -/
theorem C3_amended_link_branch_witness :
    walk_and_embed_assets testEnv cfgPlain 1 "u" ""
        (Html.mk (NodeData.element "link"
          [⟨"rel", "preconnect"⟩, ⟨"href", "h"⟩]) true [])
      = some (Html.mk (NodeData.element "link"
          (if link_type [⟨"rel", "preconnect"⟩, ⟨"href", "h"⟩] == "icon" then
            embed_link_icon testEnv cfgPlain "u"
              [⟨"rel", "preconnect"⟩, ⟨"href", "h"⟩]
           else if link_type [⟨"rel", "preconnect"⟩, ⟨"href", "h"⟩]
               == "stylesheet" then
            embed_link_stylesheet testEnv cfgPlain "u"
              [⟨"rel", "preconnect"⟩, ⟨"href", "h"⟩]
           else embed_link_passthrough testEnv "u"
              [⟨"rel", "preconnect"⟩, ⟨"href", "h"⟩])) true [])
    ∧ link_type [⟨"rel", "icon"⟩] = "icon"
    ∧ link_type [⟨"rel", "stylesheet"⟩] = "stylesheet"
    ∧ link_type [⟨"rel", "preconnect"⟩] = ""
    ∧ (embed_link_passthrough testEnv "u" [⟨"rel", "preconnect"⟩, ⟨"href", "h"⟩])[1]?
        = some ⟨"href", (testEnv.resolve_url "u" "h").getD EMPTY_STRING⟩ :=
  ⟨C3_amended_link_branch.1 testEnv cfgPlain "u" "" 0
      [⟨"rel", "preconnect"⟩, ⟨"href", "h"⟩] true rfl,
   C3_amended_link_branch.2.1 [] [] ⟨"rel", "icon"⟩ rfl (by decide)
      (fun b hb => absurd hb (List.not_mem_nil b)),
   C3_amended_link_branch.2.2.1 [] [] ⟨"rel", "stylesheet"⟩ rfl rfl
      (fun b hb => absurd hb (List.not_mem_nil b)),
   C3_amended_link_branch.2.2.2.1 [⟨"rel", "preconnect"⟩]
      (by intro b hb hn; rw [List.mem_singleton] at hb; subst hb
          exact ⟨by decide, by decide⟩),
   C3_amended_link_branch.2.2.2.2.2 testEnv "u"
      [⟨"rel", "preconnect"⟩, ⟨"href", "h"⟩] 1 ⟨"href", "h"⟩ rfl rfl⟩

/-- C5: for every `script` element walked with scripts disabled, the `src`
attribute values are cleared while the attributes stay present (the attribute
names of the element are unchanged), all child nodes are removed, and no
retrieval happens: the result is the same for every environment `env`, as the
statement quantifies over it and the right-hand side never mentions it. -/
theorem C5_script_nojs :
    ∀ (env : Env) (cfg : Config) (url pname : String) (fuel : Nat)
      (attrs : List Attr) (pp : Bool) (cs : List Html),
      cfg.opt_no_js = true →
      walk_and_embed_assets env cfg (fuel + 1) url pname
          (Html.mk (NodeData.element "script" attrs) pp cs)
        = some (Html.mk (NodeData.element "script"
            (clear_event_attrs (embed_script_nojs attrs))) pp [])
      ∧ (∀ a ∈ clear_event_attrs (embed_script_nojs attrs),
          a.name = "src" → a.value = EMPTY_STRING)
      ∧ (clear_event_attrs (embed_script_nojs attrs)).map Attr.name
          = attrs.map Attr.name := by
  intro env cfg url pname fuel attrs pp cs hjs
  refine ⟨?_, ?_, ?_⟩
  · simp [walk_and_embed_assets, element_step, hjs, mapOpt]
  · intro a ha hname
    rw [clear_event_attrs] at ha
    obtain ⟨c, hc, hca⟩ := List.mem_map.mp ha
    rw [embed_script_nojs] at hc
    obtain ⟨b, _, hbc⟩ := List.mem_map.mp hc
    by_cases hev : is_event_attr c.name
    · rw [if_pos hev] at hca
      rw [← hca]
    · rw [if_neg hev] at hca
      subst hca
      by_cases hb : b.name == "src"
      · rw [if_pos hb] at hbc
        rw [← hbc]
      · rw [if_neg hb] at hbc
        subst hbc
        exact absurd (beq_iff_eq.mpr hname) hb
  · rw [clear_event_attrs, embed_script_nojs, List.map_map, List.map_map]
    apply List.map_congr_left
    intro a _
    by_cases hb : a.name == "src"
    · simp [hb, apply_ite Attr.name]
    · simp [hb, apply_ite Attr.name]

/-- Witness for C5 at a concrete script element with an `src`, an inline
`onload` handler and a text child. -/
theorem C5_script_nojs_witness :
    walk_and_embed_assets testEnv ⟨true, false, "", true, true⟩ 1 "u" ""
        (Html.mk (NodeData.element "script"
          [⟨"src", "http://host/a.js"⟩, ⟨"onload", "go()"⟩]) true
          [Html.mk (NodeData.text "alert(1)") true []])
      = some (Html.mk (NodeData.element "script"
          (clear_event_attrs (embed_script_nojs
            [⟨"src", "http://host/a.js"⟩, ⟨"onload", "go()"⟩]))) true [])
    ∧ (∀ a ∈ clear_event_attrs (embed_script_nojs
          [⟨"src", "http://host/a.js"⟩, ⟨"onload", "go()"⟩]),
        a.name = "src" → a.value = EMPTY_STRING)
    ∧ (clear_event_attrs (embed_script_nojs
          [⟨"src", "http://host/a.js"⟩, ⟨"onload", "go()"⟩])).map Attr.name
        = [⟨"src", "http://host/a.js"⟩, ⟨"onload", "go()"⟩].map Attr.name :=
  C5_script_nojs testEnv ⟨true, false, "", true, true⟩ "u" "" 0
    [⟨"src", "http://host/a.js"⟩, ⟨"onload", "go()"⟩] true
    [Html.mk (NodeData.text "alert(1)") true []] rfl

/-- C6: when scripts are disabled, every element node — whatever its tag —
has the event-attribute pass applied after the tag-specific step: the output
attributes are `clear_event_attrs mid` for the attribute list `mid` produced
by the tag-specific arm; position `i` holds `mid`'s attribute emptied when its
lowercased name is one of the 21 `JS_DOM_EVENT_ATTRS` and is `mid`'s attribute
unchanged otherwise, so every event-named attribute in the output has an empty
value. -/
theorem C6_event_attrs_cleared :
    ∀ (env : Env) (cfg : Config) (url pname name : String) (fuel : Nat)
      (attrs : List Attr) (pp : Bool) (cs : List Html) (out : Html),
      cfg.opt_no_js = true →
      walk_and_embed_assets env cfg (fuel + 1) url pname
          (Html.mk (NodeData.element name attrs) pp cs) = some out →
      ∃ (mid : List Attr) (pp1 : Bool) (cs1 : List Html),
        out = Html.mk (NodeData.element name (clear_event_attrs mid)) pp1 cs1
        ∧ (∀ (i : Nat) (a : Attr), mid[i]? = some a →
            (clear_event_attrs mid)[i]?
              = some (if is_event_attr a.name then
                  { a with value := EMPTY_STRING } else a))
        ∧ (∀ a ∈ clear_event_attrs mid,
            is_event_attr a.name = true → a.value = EMPTY_STRING) := by
  intro env cfg url pname name fuel attrs pp cs out hjs hw
  simp only [walk_and_embed_assets] at hw
  cases hstep : element_step
      (fun u t => walk_and_embed_assets env cfg fuel u EMPTY_STRING t)
      env cfg url pname name attrs pp cs with
  | none => rw [hstep] at hw; exact absurd hw (by simp)
  | some triple =>
    obtain ⟨a1, pp1, cs1⟩ := triple
    rw [hstep] at hw
    simp only [hjs, if_true] at hw
    obtain ⟨cs', _, hout⟩ := Option.map_eq_some'.mp hw
    refine ⟨a1, pp1, cs', hout.symm, ?_, clear_event_attrs_mem a1⟩
    intro i a hi
    exact clear_event_attrs_getElem a1 i a hi

/-- Witness for C6 at a concrete `div` with an `onclick` handler and an
ordinary attribute. -/
theorem C6_event_attrs_cleared_witness :
    ∃ (mid : List Attr) (pp1 : Bool) (cs1 : List Html),
      Html.mk (NodeData.element "div"
          [⟨"onclick", EMPTY_STRING⟩, ⟨"id", "y"⟩]) true []
        = Html.mk (NodeData.element "div" (clear_event_attrs mid)) pp1 cs1
      ∧ (∀ (i : Nat) (a : Attr), mid[i]? = some a →
          (clear_event_attrs mid)[i]?
            = some (if is_event_attr a.name then
                { a with value := EMPTY_STRING } else a))
      ∧ (∀ a ∈ clear_event_attrs mid,
          is_event_attr a.name = true → a.value = EMPTY_STRING) :=
  C6_event_attrs_cleared testEnv ⟨true, false, "", true, true⟩ "u" "" "div" 0
    [⟨"onclick", "go()"⟩, ⟨"id", "y"⟩] true [] _ rfl rfl

/-- C7: for every `img` element, there is an output attribute list `A` such
that the walk produces exactly `A`, an `src` attribute with an empty value is
left untouched at its position (no placeholder, and no resolution or
retrieval can have happened since `env` is arbitrary and the preserved
attribute is independent of it), and a nonempty `src` under disabled
image-embedding becomes exactly the `TRANSPARENT_PIXEL` constant. -/
theorem C7_img_src :
    ∀ (env : Env) (cfg : Config) (url pname : String) (fuel : Nat)
      (attrs : List Attr) (pp : Bool),
      ∃ A : List Attr,
        walk_and_embed_assets env cfg (fuel + 1) url pname
            (Html.mk (NodeData.element "img" attrs) pp [])
          = some (Html.mk (NodeData.element "img" A) pp [])
        ∧ ∀ (i : Nat) (a : Attr), attrs[i]? = some a → a.name = "src" →
            ((a.value = EMPTY_STRING → A[i]? = some a)
             ∧ (a.value ≠ EMPTY_STRING → cfg.opt_no_images = true →
                 A[i]? = some { a with value := TRANSPARENT_PIXEL })) := by
  intro env cfg url pname fuel attrs pp
  refine ⟨(if cfg.opt_no_js then clear_event_attrs (embed_img env cfg url attrs)
           else embed_img env cfg url attrs), ?_, ?_⟩
  · by_cases hjs : cfg.opt_no_js
    · simp [walk_and_embed_assets, element_step, hjs, mapOpt]
    · simp [walk_and_embed_assets, element_step, hjs, mapOpt]
  · intro i a hai hname
    have hn : (a.name == "src") = true := beq_iff_eq.mpr hname
    have hnev : is_event_attr a.name = false := by rw [hname]; decide
    constructor
    · intro hv
      have hv' : (a.value == EMPTY_STRING) = true := beq_iff_eq.mpr hv
      have hemb : (embed_img env cfg url attrs)[i]? = some a := by
        rw [embed_img, List.getElem?_map, hai, Option.map_some']
        simp [hn, hv']
      by_cases hjs : cfg.opt_no_js
      · rw [if_pos hjs, clear_event_attrs_getElem _ i a hemb]
        simp [hnev]
      · rw [if_neg hjs]
        exact hemb
    · intro hv hni
      have hv' : (a.value == EMPTY_STRING) = false := by
        rw [beq_eq_false_iff_ne]
        exact hv
      have hemb : (embed_img env cfg url attrs)[i]?
          = some { a with value := TRANSPARENT_PIXEL } := by
        rw [embed_img, List.getElem?_map, hai, Option.map_some']
        simp [hn, hv', hni]
      by_cases hjs : cfg.opt_no_js
      · rw [if_pos hjs, clear_event_attrs_getElem _ i _ hemb]
        simp [hnev]
      · rw [if_neg hjs]
        exact hemb

/-- Witness for C7 at a concrete `img` with one empty and one nonempty `src`,
walked with images disabled. -/
theorem C7_img_src_witness :
    ∃ A : List Attr,
      walk_and_embed_assets testEnv cfgNoImages 1 "u" ""
          (Html.mk (NodeData.element "img"
            [⟨"src", ""⟩, ⟨"src", "http://host/a.png"⟩]) true [])
        = some (Html.mk (NodeData.element "img" A) true [])
      ∧ A[0]? = some ⟨"src", ""⟩
      ∧ A[1]? = some ⟨"src", TRANSPARENT_PIXEL⟩ := by
  obtain ⟨A, h1, h2⟩ := C7_img_src testEnv cfgNoImages "u" "" 0
    [⟨"src", ""⟩, ⟨"src", "http://host/a.png"⟩] true
  exact ⟨A, h1, (h2 0 ⟨"src", ""⟩ rfl rfl).1 rfl,
    (h2 1 ⟨"src", "http://host/a.png"⟩ rfl rfl).2 (by decide) rfl⟩

/-- C9: an `iframe` whose every `src` attribute is empty is left completely
unchanged.  The statement holds with fuel `fuel + 1` for every `fuel`,
including `0`, where any nested sub-walk would exhaust the fuel and return
`none` — so the success of the walk shows no recursive sub-document walk was
triggered; and since `env` is arbitrary and absent from the result, no
resolution or retrieval happened either. -/
theorem C9_iframe_empty_src :
    ∀ (env : Env) (cfg : Config) (url pname : String) (fuel : Nat)
      (attrs : List Attr) (pp : Bool),
      cfg.opt_no_js = false →
      (∀ a ∈ attrs, a.name = "src" → a.value = EMPTY_STRING) →
      walk_and_embed_assets env cfg (fuel + 1) url pname
          (Html.mk (NodeData.element "iframe" attrs) pp [])
        = some (Html.mk (NodeData.element "iframe" attrs) pp []) := by
  intro env cfg url pname fuel attrs pp hjs hempty
  have hstep := iframe_step_all_empty
    (fun u t => walk_and_embed_assets env cfg fuel u EMPTY_STRING t)
    env cfg url attrs hempty
  simp [walk_and_embed_assets, element_step, hjs, hstep, mapOpt]

/-- Witness for C9 at a concrete `iframe` with empty `src`, walked with fuel
1 (so any sub-walk would have failed). -/
theorem C9_iframe_empty_src_witness :
    walk_and_embed_assets testEnv cfgPlain 1 "u" ""
        (Html.mk (NodeData.element "iframe" [⟨"src", ""⟩, ⟨"id", "z"⟩]) true [])
      = some (Html.mk (NodeData.element "iframe"
          [⟨"src", ""⟩, ⟨"id", "z"⟩]) true []) :=
  C9_iframe_empty_src testEnv cfgPlain "u" "" 0 [⟨"src", ""⟩, ⟨"id", "z"⟩] true
    rfl (by decide)

/-- C10: an element whose tag is none of the seven handled tags has no
attribute rewritten by the tag-specific step — the walk output is exactly the
original attributes (with only the event-attribute pass applied when scripts
are disabled, which leaves every attribute outside the 21-name set untouched
at its position) — and its children are still recursed into. -/
theorem C10_uncovered_tags :
    ∀ (env : Env) (cfg : Config) (url pname name : String) (fuel : Nat)
      (attrs : List Attr) (pp : Bool) (cs : List Html),
      name ∉ ["link", "img", "source", "a", "script", "form", "iframe"] →
      (walk_and_embed_assets env cfg (fuel + 1) url pname
          (Html.mk (NodeData.element name attrs) pp cs)
        = (mapOpt (walk_and_embed_assets env cfg fuel url name) cs).map
            (Html.mk (NodeData.element name
              (if cfg.opt_no_js then clear_event_attrs attrs else attrs)) pp))
      ∧ (∀ (i : Nat) (a : Attr), attrs[i]? = some a →
          is_event_attr a.name = false →
          (clear_event_attrs attrs)[i]? = some a) := by
  intro env cfg url pname name fuel attrs pp cs hname
  simp only [List.mem_cons, List.not_mem_nil, or_false, not_or] at hname
  obtain ⟨h1, h2, h3, h4, h5, h6, h7⟩ := hname
  have b1 : (name == "link") = false := by rw [beq_eq_false_iff_ne]; exact h1
  have b2 : (name == "img") = false := by rw [beq_eq_false_iff_ne]; exact h2
  have b3 : (name == "source") = false := by rw [beq_eq_false_iff_ne]; exact h3
  have b4 : (name == "a") = false := by rw [beq_eq_false_iff_ne]; exact h4
  have b5 : (name == "script") = false := by rw [beq_eq_false_iff_ne]; exact h5
  have b6 : (name == "form") = false := by rw [beq_eq_false_iff_ne]; exact h6
  have b7 : (name == "iframe") = false := by rw [beq_eq_false_iff_ne]; exact h7
  constructor
  · simp [walk_and_embed_assets, element_step, b1, b2, b3, b4, b5, b6, b7]
  · intro i a hai hev
    rw [clear_event_attrs_getElem attrs i a hai]
    simp [hev]

/-- Witness for C10 at a concrete `div` with a `style` attribute and a text
child. -/
theorem C10_uncovered_tags_witness :
    (walk_and_embed_assets testEnv cfgPlain 2 "u" ""
        (Html.mk (NodeData.element "div" [⟨"style", "x"⟩]) true
          [Html.mk (NodeData.text "t") true []])
      = (mapOpt (walk_and_embed_assets testEnv cfgPlain 1 "u" "div")
          [Html.mk (NodeData.text "t") true []]).map
          (Html.mk (NodeData.element "div"
            (if cfgPlain.opt_no_js then clear_event_attrs [⟨"style", "x"⟩]
             else [⟨"style", "x"⟩])) true))
    ∧ (clear_event_attrs [⟨"style", "x"⟩])[0]? = some ⟨"style", "x"⟩ :=
  have h := C10_uncovered_tags testEnv cfgPlain "u" "" "div" 1 [⟨"style", "x"⟩]
    true [Html.mk (NodeData.text "t") true []] (by decide)
  ⟨h.1, h.2 0 ⟨"style", "x"⟩ rfl (by decide)⟩

/-- C4: resolution and retrieval failures are non-fatal.  Under `envFail`,
in which every `resolve_url` and every `retrieve_asset` call fails, the walker
still returns a result on every panic-free tree (given fuel beyond the tree's
depth), and the failing steps degrade to the empty string: a failing `img`
retrieval leaves `src` empty rather than aborting, and failing stylesheet or
passthrough `link` steps leave `href` empty. -/
theorem C4_failures_nonfatal :
    (∀ (cfg : Config) (url pname : String) (fuel : Nat) (t : Html),
      Html.wf t = true → Html.depth t < fuel →
      (walk_and_embed_assets envFail cfg fuel url pname t).isSome = true)
    ∧ (∀ (cfg : Config) (url : String) (attrs : List Attr),
        cfg.opt_no_images = false →
        embed_img envFail cfg url attrs
          = attrs.map fun a =>
              if a.name == "src" then
                if a.value == EMPTY_STRING then a
                else { a with value := EMPTY_STRING }
              else a)
    ∧ (∀ (cfg : Config) (url : String) (attrs : List Attr),
        embed_link_stylesheet envFail cfg url attrs
          = attrs.map fun a =>
              if a.name == "href" then { a with value := EMPTY_STRING } else a)
    ∧ (∀ (url : String) (attrs : List Attr),
        embed_link_passthrough envFail url attrs
          = attrs.map fun a =>
              if a.name == "href" then { a with value := EMPTY_STRING } else a) := by
  refine ⟨fun cfg url pname fuel t hwf hd =>
      walk_envFail_total fuel t cfg url pname hwf hd, ?_, ?_, ?_⟩
  · intro cfg url attrs hni
    rw [embed_img]
    apply List.map_congr_left
    intro a _
    by_cases hn : a.name == "src"
    · by_cases hv : a.value == EMPTY_STRING
      · simp [hn, hv]
      · simp [hn, hv, hni, envFail]
    · simp [hn]
  · intro cfg url attrs
    rw [embed_link_stylesheet]
    apply List.map_congr_left
    intro a _
    by_cases hn : a.name == "href"
    · simp [hn, envFail]
    · simp [hn]
  · intro url attrs
    rw [embed_link_passthrough]
    apply List.map_congr_left
    intro a _
    by_cases hn : a.name == "href"
    · simp [hn, envFail]
    · simp [hn]

/-- Witness for C4: a document with a stylesheet `link` is walked to
completion under the all-failing environment, and the failing stylesheet step
leaves `href` empty. -/
theorem C4_failures_nonfatal_witness :
    (walk_and_embed_assets envFail ⟨true, true, "", true, true⟩ 3 "http://u" ""
        (Html.mk NodeData.document false
          [Html.mk (NodeData.element "link"
            [⟨"rel", "stylesheet"⟩, ⟨"href", "h"⟩]) true []])).isSome = true
    ∧ embed_link_stylesheet envFail ⟨true, true, "", true, true⟩ "http://u"
        [⟨"rel", "stylesheet"⟩, ⟨"href", "h"⟩]
      = [⟨"rel", "stylesheet"⟩, ⟨"href", EMPTY_STRING⟩] := by
  constructor
  · exact C4_failures_nonfatal.1 ⟨true, true, "", true, true⟩ "http://u" "" 3
      (Html.mk NodeData.document false
        [Html.mk (NodeData.element "link"
          [⟨"rel", "stylesheet"⟩, ⟨"href", "h"⟩]) true []]) rfl (by decide)
  · rw [C4_failures_nonfatal.2.2.1 ⟨true, true, "", true, true⟩ "http://u"
      [⟨"rel", "stylesheet"⟩, ⟨"href", "h"⟩]]
    rfl
